import Mathlib

/-!
# Verification of the dasher beat pipeline

A shallow embedding of the beat-detection analysis pipeline, the playback
scheduler and the obstacle planner of the dasher rhythm game
(`src/core/audio.js`, `src/core/level.js`), with theorems settling
behavioural properties of them.  Times, energies and positions are modelled
as rationals; the per-frame spectral computation upstream of `totalEnergy`
is outside the properties considered, so the detector is embedded from the
energy-sample level down, exactly following the source.
-/

namespace Dasher

/-- A beat event as stored in the `beatMap` field: `{ time, intensity }`
(`audio.js` lines 152 to 155). -/
structure Beat where
  time : ℚ
  intensity : ℚ
deriving DecidableEq, Repr

/-- One analysis frame, reduced to what the detection branch reads: the
audio position of the frame (`analysisAudio.currentTime`) and the weighted
`totalEnergy` computed at `audio.js` line 114. -/
structure Sample where
  time : ℚ
  totalEnergy : ℚ
deriving DecidableEq, Repr

/-- The tunables of the `beatParams` field (`audio.js` lines 16 to 23). -/
structure BeatParams where
  minBeatInterval : ℚ
  energyThreshold : ℚ
  dynamicRange : ℚ
  beatDecay : ℚ
  historySize : Nat
  minBeatIntensity : ℚ
deriving Repr

/-- The default parameters set by the constructor: `minBeatInterval: 500`
(ms), `energyThreshold: 240`, `dynamicRange: 1.3`, `beatDecay: 0.98`,
`historySize: 30`, `minBeatIntensity: 0.70`. -/
def defaultBeatParams : BeatParams :=
  { minBeatInterval := 500
    energyThreshold := 240
    dynamicRange := 13 / 10
    beatDecay := 49 / 50
    historySize := 30
    minBeatIntensity := 7 / 10 }

/-- The mutable state an analysis run reads and writes: the instance
fields `beatHistory`, `dynamicThreshold`, `beatMap` and the run-local
variables `lastBeatTime`, `lastEnergy` (`audio.js` lines 25, 26, 87, 93,
11). -/
structure DetectorState where
  beatHistory : List ℚ
  dynamicThreshold : ℚ
  lastBeatTime : ℚ
  lastEnergy : ℚ
  beatMap : List Beat
deriving DecidableEq, Repr

/-- The state every analysis run starts from after its resets. -/
def initDetectorState : DetectorState :=
  { beatHistory := [], dynamicThreshold := 0, lastBeatTime := 0,
    lastEnergy := 0, beatMap := [] }

/-- Mean of a list of rationals (`beatHistory.reduce((a,b)=>a+b,0) /
beatHistory.length`, `audio.js` line 128). -/
def listAvg (l : List ℚ) : ℚ := l.sum / l.length

/-- `beatHistory.push(e)` followed by `if (length > historySize) shift()`
(`audio.js` lines 121 to 124): append, then drop the oldest entry when
over capacity. -/
def pushHistory (cap : Nat) (h : List ℚ) (e : ℚ) : List ℚ :=
  let h := h ++ [e]
  if cap < h.length then h.tail else h

/-- The candidate-beat test and emission of one `analyze` iteration
(`audio.js` lines 134 to 163), with the already-updated history `hist`
and dynamic threshold `thr` passed in: fire when
`(totalEnergy > energyThreshold || energyChange > energyThreshold/2) &&
 timeSinceLastBeat >= minBeatInterval/1000`,
and on fire compute the floored intensity and, if it clears
`minBeatIntensity`, push `{time, intensity}` and update `lastBeatTime`;
`energyChange` is `s.totalEnergy - st.lastEnergy` and `lastEnergy` always
becomes the energy of the current frame (line 118). -/
def detectEmit (p : BeatParams) (st : DetectorState) (s : Sample)
    (hist : List ℚ) (thr : ℚ) : DetectorState :=
  if (p.energyThreshold < s.totalEnergy ∨
        p.energyThreshold / 2 < s.totalEnergy - st.lastEnergy) ∧
      p.minBeatInterval / 1000 ≤ s.time - st.lastBeatTime then
    let energyIntensity := min (s.totalEnergy / 255) 1
    let changeIntensity := min (max (s.totalEnergy - st.lastEnergy) 0 / 100) 1
    let intensity := max (min ((energyIntensity + changeIntensity) / 2) 1) p.minBeatIntensity
    if p.minBeatIntensity ≤ intensity then
      { beatHistory := hist, dynamicThreshold := thr,
        lastBeatTime := s.time, lastEnergy := s.totalEnergy,
        beatMap := st.beatMap ++ [⟨s.time, intensity⟩] }
    else
      { beatHistory := hist, dynamicThreshold := thr,
        lastBeatTime := st.lastBeatTime, lastEnergy := s.totalEnergy,
        beatMap := st.beatMap }
  else
    { beatHistory := hist, dynamicThreshold := thr,
      lastBeatTime := st.lastBeatTime, lastEnergy := s.totalEnergy,
      beatMap := st.beatMap }

/-- One iteration of the `analyze` frame callback, restricted to the
detection logic (`audio.js` lines 116 to 163): push the energy of the
frame onto the bounded history, recompute and decay the dynamic threshold
once the history holds `min(10, historySize)` entries, then run the
candidate-beat test and emission. -/
def detectStep (p : BeatParams) (st : DetectorState) (s : Sample) : DetectorState :=
  let hist := pushHistory p.historySize st.beatHistory s.totalEnergy
  let thr :=
    if min 10 p.historySize ≤ hist.length then
      listAvg hist * p.dynamicRange * p.beatDecay
    else st.dynamicThreshold
  detectEmit p st s hist thr

/-- The comparator ordering of `beatMap.sort((a, b) => a.time - b.time)`
(`audio.js` line 180). -/
def beatTimeLE (x y : Beat) : Prop := x.time ≤ y.time

instance : DecidableRel beatTimeLE := fun x y =>
  inferInstanceAs (Decidable (x.time ≤ y.time))

/-- The post-filter predicate at `audio.js` lines 185 to 187, for one event
`cur` whose predecessor in the pre-filter array is `prev`:
`timeDiff >= minBeatInterval/1000 || cur.intensity > prev.intensity * 1.2`. -/
def keepBeat (p : BeatParams) (prev cur : Beat) : Prop :=
  p.minBeatInterval / 1000 ≤ cur.time - prev.time ∨
    prev.intensity * (12 / 10) < cur.intensity

instance (p : BeatParams) : DecidableRel (keepBeat p) := fun _ _ =>
  inferInstanceAs (Decidable (_ ∨ _))

/-- The tail of the post-filter: each event is tested against its
predecessor in the array being filtered (JS `array[index - 1]`), which
advances to the current event whether or not it was kept — dropped events
still serve as the predecessor of the next event. -/
def postFilterAux (p : BeatParams) : Beat → List Beat → List Beat
  | _, [] => []
  | prev, cur :: rest =>
    if keepBeat p prev cur then cur :: postFilterAux p cur rest
    else postFilterAux p cur rest

/-- `beatMap.filter((beat, index, array) => index === 0 || ...)`
(`audio.js` lines 183 to 188): the first event is always kept. -/
def postFilter (p : BeatParams) : List Beat → List Beat
  | [] => []
  | b :: rest => b :: postFilterAux p b rest

/-- `analyzeFullTrack`, from the energy-sample level down: reset the
fields `beatMap`, `beatHistory`, `dynamicThreshold` and the run-local
`lastBeatTime`, `lastEnergy` (`audio.js` lines 39, 87, 90 to 93), fold the
frame callback over the samples, then sort by time and apply the
post-filter (lines 180 to 188). -/
def analyzeFullTrack (p : BeatParams) (prior : DetectorState)
    (samples : List Sample) : List Beat :=
  let st0 : DetectorState :=
    { prior with beatMap := [], beatHistory := [], dynamicThreshold := 0,
                 lastBeatTime := 0, lastEnergy := 0 }
  let raw := (samples.foldl (detectStep p) st0).beatMap
  postFilter p (raw.insertionSort beatTimeLE)

/-- The spike sequence of the synthetic end-to-end test: `totalEnergy=50`
at `t = 0, 0.2, ..., 2.0` except a spike of `300` at `t = 1.0`. -/
def spikeSamples : List Sample :=
  [⟨0, 50⟩, ⟨1/5, 50⟩, ⟨2/5, 50⟩, ⟨3/5, 50⟩, ⟨4/5, 50⟩, ⟨1, 300⟩,
   ⟨6/5, 50⟩, ⟨7/5, 50⟩, ⟨8/5, 50⟩, ⟨9/5, 50⟩, ⟨2, 50⟩]

/-- The flat sequence of the synthetic end-to-end test: `totalEnergy=50`
throughout. -/
def flatSamples : List Sample :=
  [⟨0, 50⟩, ⟨1/5, 50⟩, ⟨2/5, 50⟩, ⟨3/5, 50⟩, ⟨4/5, 50⟩, ⟨1, 50⟩,
   ⟨6/5, 50⟩, ⟨7/5, 50⟩, ⟨8/5, 50⟩, ⟨9/5, 50⟩, ⟨2, 50⟩]

/-! ## Playback scheduler

`start` (`audio.js` lines 269 to 305) arms one `setTimeout` per beat at
`beat.time * 1000` ms and fires the registered callback with
`(beat.intensity, beat.time)` if `isPlaying` is still set; `resume`
(lines 324 to 351) arms timers only for beats with
`beat.time > audioElement.currentTime`, delayed by
`(beat.time - currentTime) * 1000` ms, and fires the callback with
`beat.intensity` alone.  A timer records when it fires (in wall-clock
seconds from the start of the session) and which arguments the callback
receives: `timeArg` is the second argument, `none` when the call site
passes only the intensity. -/

/-- A pending one-shot `setTimeout` armed by `start` or `resume`. -/
structure Timer where
  fireAt : ℚ
  intensity : ℚ
  timeArg : Option ℚ
deriving DecidableEq, Repr

/-- The timers armed by `start` (`audio.js` lines 289 to 296): one per
beat of the map, firing at `beat.time` seconds, passing
`(beat.intensity, beat.time)` to the callback. -/
def startTimers (bm : List Beat) : List Timer :=
  bm.map fun b => ⟨b.time, b.intensity, some b.time⟩

/-- The timers armed by `resume` (`audio.js` lines 332 to 342): only
beats with `beat.time > pos` (the audio position at resume), each delayed
by `beat.time - pos` from the resume moment `wr`, passing only
`beat.intensity` to the callback (`timeArg = none`). -/
def resumeTimers (bm : List Beat) (pos wr : ℚ) : List Timer :=
  (bm.filter fun b => decide (pos < b.time)).map
    fun b => ⟨wr + (b.time - pos), b.intensity, none⟩

/-- The `isPlaying` flag over wall-clock time in a session that starts
playback at wall 0, pauses at wall `wp` and resumes at wall `wr`:
`start` sets it, `pause` clears it, `resume` sets it again
(`audio.js` lines 286, 317, 345). -/
def isActiveAt (wp wr w : ℚ) : Bool :=
  decide (w < wp) || decide (wr ≤ w)

/-- All callback invocations of a start-pause-resume session over a frozen
beat map.  Playback starts at wall 0 (audio position 0), pauses at wall
`wp` (audio position `wp`), resumes at wall `wr`.  `pause` does not cancel
the timers armed by `start` (`audio.js` lines 316 to 322), so every armed
timer eventually runs its callback body, which checks
`isPlaying && onBeatDetected` at its firing moment (lines 291 and 338). -/
def sessionFirings (bm : List Beat) (wp wr : ℚ) : List Timer :=
  (startTimers bm ++ resumeTimers bm wp wr).filter
    fun t => isActiveAt wp wr t.fireAt

/-- The fields of the `AudioManager` read and written by `start` apart
from the detector state. -/
structure AMState where
  isAnalyzed : Bool
  beatMap : List Beat
  isPlaying : Bool
deriving DecidableEq, Repr

/-- `start(beatCallback)` (`audio.js` lines 269 to 305): if `isAnalyzed`
is false, run and await `analyzeFullTrack` first (which freezes the map
and sets `isAnalyzed`); then reset the audio position, set
`isPlaying = true`, arm one timer per beat of the frozen map, and await
`play()`.  `playOk` models whether the underlying `play()` call succeeds:
on success `start` returns `true`; on failure the `catch` branch logs and
returns `false` — a normal return, not a rethrow — leaving `isPlaying`
set and the timers armed.  The result is the post state, the armed
timers, and the task outcome (`Except.error` would be a rejection, which
this path never produces). -/
def startAM (p : BeatParams) (prior : DetectorState) (s : AMState)
    (samples : List Sample) (playOk : Bool) :
    AMState × List Timer × Except Unit Bool :=
  let s := if s.isAnalyzed then s
           else { s with beatMap := analyzeFullTrack p prior samples,
                         isAnalyzed := true }
  let timers := startTimers s.beatMap
  let s := { s with isPlaying := true }
  if playOk then (s, timers, Except.ok true) else (s, timers, Except.ok false)

/-- The timers of a failed `start` whose callback bodies pass their
`isPlaying && onBeatDetected` guard when no further state change
intervenes: all of them when `isPlaying` is set, none otherwise. -/
def firesAfterFailedStart (s : AMState) (timers : List Timer) : List Timer :=
  if s.isPlaying then timers else []

/-- The beat map of the playback-failure scenario. -/
def c2BeatMap : List Beat := [⟨1, 4/5⟩]

/-- A failed `start` on an analyzed single-beat map: `play()` rejects. -/
def c2Out : AMState × List Timer × Except Unit Bool :=
  startAM defaultBeatParams initDetectorState ⟨true, c2BeatMap, false⟩ [] false

/-- The beat map of the pause-resume scenario: one beat at `t = 2.0`. -/
def c1BeatMap : List Beat := [⟨2, 1⟩]

/-! ## Obstacle planner (`level.js`)

Positions are x coordinates.  `spawnLog` is a ghost field recording every
spawn in order, for specification only: the code fields `planned`,
`obstacleQueue` (live obstacle positions) and `lastObstaclePosition`
mirror the source exactly. -/

/-- `Math.abs`. -/
def ratAbs (x : ℚ) : ℚ := if x < 0 then -x else x

/-- `minObstacleDistance` (`level.js` line 10). -/
def minObstacleDistance : ℚ := 5

/-- `obstacleSettings.spawnDistance` (`level.js` line 19). -/
def spawnDistance : ℚ := 35

/-- `obstacleSettings.despawnDistance` (`level.js` line 20). -/
def despawnDistance : ℚ := -20

/-- An entry of the `plannedObstacles` map: `{ position, intensity,
spawned }` keyed by `beatTime` (`level.js` lines 42 to 46). -/
structure PlannedObstacle where
  beatTime : ℚ
  position : ℚ
  intensity : ℚ
  spawned : Bool
deriving DecidableEq, Repr

/-- The `LevelGenerator` state touched by the spawn paths: the planned
map, the live obstacle queue (positions), and `lastObstaclePosition`
(`level.js` lines 7 to 9), plus the ghost spawn log. -/
structure LevelState where
  planned : List PlannedObstacle
  obstacleQueue : List ℚ
  lastObstaclePosition : ℚ
  spawnLog : List ℚ
deriving DecidableEq, Repr

/-- `preplanObstacles(beatMap)` (`level.js` lines 26 to 54): keep beats at
least `0.2` s after the previously kept beat (the initial
`lastBeatTime = -Infinity` is modelled by `none`, so the first beat is
always kept), storing `spawnPosition = spawnDistance + speed * beatTime`
and `spawned = false`. -/
def preplanObstacles (speed : ℚ) (bm : List Beat) : List PlannedObstacle :=
  (bm.foldl
    (fun acc b =>
      match acc.2 with
      | none =>
        (acc.1 ++ [⟨b.time, spawnDistance + speed * b.time, b.intensity, false⟩],
         some b.time)
      | some lbt =>
        if 1/5 ≤ b.time - lbt then
          (acc.1 ++ [⟨b.time, spawnDistance + speed * b.time, b.intensity, false⟩],
           some b.time)
        else acc)
    ([], none)).1

/-- `spawnObstacle(position, intensity)` (`level.js` lines 66 to 71): add
the obstacle to the queue and update `lastObstaclePosition`.  The ghost
log records the spawn. -/
def spawnObstacle (st : LevelState) (pos : ℚ) : LevelState :=
  { st with obstacleQueue := st.obstacleQueue ++ [pos],
            lastObstaclePosition := pos,
            spawnLog := st.spawnLog ++ [pos] }

/-- `generateObstacleOnBeat(intensity, playerFuturePos)` (`level.js`
lines 56 to 64): spawn at `playerFuturePos + spawnDistance` if that is at
least `minObstacleDistance` away from `lastObstaclePosition`. -/
def generateObstacleOnBeat (st : LevelState) (playerFuturePos : ℚ) : LevelState :=
  let pos := playerFuturePos + spawnDistance
  if minObstacleDistance ≤ ratAbs (pos - st.lastObstaclePosition) then
    spawnObstacle st pos
  else st

/-- The body of the `plannedObstacles.forEach` of `update()` (`level.js`
lines 78 to 89), threading the generator state and rebuilding the planned
list: an unspawned obstacle whose beat lies in the look-ahead window
`0 < beatTime - currentTime <= 2.5` spawns at
`playerX + spawnDistance` when that clears `minObstacleDistance` from
`lastObstaclePosition`, and is then marked `spawned`. -/
def updatePlannedStep (currentTime playerX : ℚ)
    (acc : LevelState × List PlannedObstacle) (ob : PlannedObstacle) :
    LevelState × List PlannedObstacle :=
  let st := acc.1
  if ob.spawned then (st, acc.2 ++ [ob])
  else if 0 < ob.beatTime - currentTime ∧ ob.beatTime - currentTime ≤ 5/2 then
    let pos := playerX + spawnDistance
    if minObstacleDistance ≤ ratAbs (pos - st.lastObstaclePosition) then
      (spawnObstacle st pos, acc.2 ++ [{ ob with spawned := true }])
    else (st, acc.2 ++ [ob])
  else (st, acc.2 ++ [ob])

/-- `update()` (`level.js` lines 73 to 99): run the look-ahead pass over
the planned obstacles, then despawn every live obstacle whose position
fell behind `playerX + despawnDistance`. -/
def levelUpdate (st : LevelState) (currentTime playerX : ℚ) : LevelState :=
  let r := st.planned.foldl (updatePlannedStep currentTime playerX) (st, [])
  { r.1 with planned := r.2,
             obstacleQueue := r.1.obstacleQueue.filter
               fun pos => !decide (pos < playerX + despawnDistance) }

/-- One event of a play session, as seen by the generator: a beat
callback routed through `generateObstacleOnBeat` (with the
`playerFuturePos` computed by the game), or one frame of the game loop
calling `update()` at a given audio time and player position. -/
inductive LevelStep where
  | beat (playerFuturePos : ℚ)
  | frame (currentTime playerX : ℚ)
deriving DecidableEq, Repr

/-- Apply one session event to the generator state. -/
def applyLevelStep (st : LevelState) : LevelStep → LevelState
  | .beat pfp => generateObstacleOnBeat st pfp
  | .frame t x => levelUpdate st t x

/-- Run a session: fold the events over the generator state. -/
def runLevel (st : LevelState) (trace : List LevelStep) : LevelState :=
  trace.foldl applyLevelStep st

/-- Planned obstacles of the spacing counterexample: one beat at
`t = 2.0`, preplanned at game speed 10. -/
def c7Planned : List PlannedObstacle := preplanObstacles 10 [⟨2, 4/5⟩]

/-- The counterexample session: a reactive spawn for a far-ahead beat
(`playerFuturePos = 15`, spawning at 50), a look-ahead frame at audio
time `0.2` with `playerX = 9` (spawning at 44), then a reactive spawn with
`playerFuturePos = 14` (spawning at 49, which is 5 away from 44 but only
1 away from the still-live obstacle at 50). -/
def c7Trace : List LevelStep := [.beat 15, .frame (1/5) 9, .beat 14]

/-- The generator state at the end of the counterexample session, from
the reset state (`level.js` lines 165 to 172). -/
def c7Final : LevelState := runLevel ⟨c7Planned, [], 0, []⟩ c7Trace

/-! ## Invariants used by the theorems -/

/-- The gap of the debounce gate and of the post-filter, in seconds:
`minBeatInterval / 1000`. -/
def minGap (p : BeatParams) : ℚ := p.minBeatInterval / 1000

/-- Adjacent beats are at least `q` seconds apart. -/
def Spaced (q : ℚ) (l : List Beat) : Prop :=
  l.Chain' fun x y => x.time + q ≤ y.time

/-- The invariant the debounce gate maintains across the analysis fold:
the emitted map is spaced, and no emitted beat is later than
`lastBeatTime`. -/
def DetInv (q : ℚ) (st : DetectorState) : Prop :=
  Spaced q st.beatMap ∧ ∀ b ∈ st.beatMap, b.time ≤ st.lastBeatTime

/-- Consecutive spawn positions are at least `minObstacleDistance`
apart. -/
def SpawnChain (l : List ℚ) : Prop :=
  l.Chain' fun x y => minObstacleDistance ≤ |y - x|

/-- The invariant of the generator state: the spawn log is consecutively
spaced and ends at `lastObstaclePosition`. -/
def LevelInv (st : LevelState) : Prop :=
  SpawnChain st.spawnLog ∧
    (st.spawnLog ≠ [] → st.spawnLog.getLast? = some st.lastObstaclePosition)

end Dasher

namespace Dasher

instance : IsTrans Beat beatTimeLE :=
  ⟨fun _ _ _ hab hbc => le_trans hab hbc⟩

/-- The emission step either leaves the map and `lastBeatTime` unchanged,
or it appends one beat at the time of the frame, in which case the
debounce gate guarantees the new time clears `lastBeatTime` by at least
`minBeatInterval/1000`. -/
theorem detectEmit_cases (p : BeatParams) (st : DetectorState) (s : Sample)
    (hist : List ℚ) (thr : ℚ) :
    ((detectEmit p st s hist thr).beatMap = st.beatMap ∧
      (detectEmit p st s hist thr).lastBeatTime = st.lastBeatTime) ∨
    (p.minBeatInterval / 1000 ≤ s.time - st.lastBeatTime ∧
      ∃ i, (detectEmit p st s hist thr).beatMap = st.beatMap ++ [⟨s.time, i⟩] ∧
        (detectEmit p st s hist thr).lastBeatTime = s.time) := by
  simp only [detectEmit]
  split_ifs with h1 h2
  · exact Or.inr ⟨h1.2, _, rfl, rfl⟩
  · exact Or.inl ⟨rfl, rfl⟩
  · exact Or.inl ⟨rfl, rfl⟩

/-- `detectStep` inherits the case split of the emission step. -/
theorem detectStep_cases (p : BeatParams) (st : DetectorState) (s : Sample) :
    ((detectStep p st s).beatMap = st.beatMap ∧
      (detectStep p st s).lastBeatTime = st.lastBeatTime) ∨
    (p.minBeatInterval / 1000 ≤ s.time - st.lastBeatTime ∧
      ∃ i, (detectStep p st s).beatMap = st.beatMap ++ [⟨s.time, i⟩] ∧
        (detectStep p st s).lastBeatTime = s.time) := by
  simp only [detectStep]
  exact detectEmit_cases p st s _ _

/-- The debounce gate preserves the spacing invariant. -/
theorem detInv_detectStep (p : BeatParams) (hq : 0 ≤ minGap p)
    (st : DetectorState) (h : DetInv (minGap p) st) (s : Sample) :
    DetInv (minGap p) (detectStep p st s) := by
  obtain ⟨hchain, hle⟩ := h
  rcases detectStep_cases p st s with ⟨hbm, hlbt⟩ | ⟨hgap, i, hbm, hlbt⟩
  · refine ⟨?_, ?_⟩
    · show Spaced (minGap p) (detectStep p st s).beatMap
      rw [hbm]
      exact hchain
    · intro b hb
      rw [hbm] at hb
      rw [hlbt]
      exact hle b hb
  · have hgap' : minGap p ≤ s.time - st.lastBeatTime := hgap
    refine ⟨?_, ?_⟩
    · show Spaced (minGap p) (detectStep p st s).beatMap
      rw [hbm]
      unfold Spaced at hchain ⊢
      rw [List.chain'_append]
      refine ⟨hchain, List.chain'_singleton _, ?_⟩
      intro x hx y hy
      simp only [List.head?_cons, Option.mem_def, Option.some.injEq] at hy
      subst hy
      have hxmem : x ∈ st.beatMap := List.mem_of_mem_getLast? hx
      have hxle := hle x hxmem
      show x.time + minGap p ≤ s.time
      linarith
    · intro b hb
      rw [hbm] at hb
      rw [hlbt]
      rcases List.mem_append.1 hb with hb | hb
      · have := hle b hb
        linarith
      · simp only [List.mem_singleton] at hb
        subst hb
        exact le_refl _
  
/-- The spacing invariant is preserved by the whole analysis fold. -/
theorem detInv_foldl (p : BeatParams) (hq : 0 ≤ minGap p)
    (st : DetectorState) (h : DetInv (minGap p) st) (samples : List Sample) :
    DetInv (minGap p) (samples.foldl (detectStep p) st) := by
  induction samples generalizing st with
  | nil => exact h
  | cons s rest ih => exact ih _ (detInv_detectStep p hq st h s)

/-- On a list whose adjacent events already clear `minGap`, the
post-filter keeps everything after the head: the spacing disjunct of
`keepBeat` always holds. -/
theorem postFilterAux_eq_self (p : BeatParams) {prev : Beat} {l : List Beat}
    (h : List.Chain' (fun x y : Beat => x.time + minGap p ≤ y.time) (prev :: l)) :
    postFilterAux p prev l = l := by
  induction l generalizing prev with
  | nil => rfl
  | cons c rest ih =>
    rw [List.chain'_cons] at h
    obtain ⟨hpc, hrest⟩ := h
    have hkeep : keepBeat p prev c := Or.inl (by
      show p.minBeatInterval / 1000 ≤ c.time - prev.time
      have hgap : prev.time + minGap p ≤ c.time := hpc
      unfold minGap at hgap
      linarith)
    simp only [postFilterAux]
    rw [if_pos hkeep, ih hrest]

/-- On a `minGap`-spaced list the post-filter is the identity. -/
theorem postFilter_eq_self (p : BeatParams) {l : List Beat}
    (h : Spaced (minGap p) l) : postFilter p l = l := by
  cases l with
  | nil => rfl
  | cons b rest =>
    simp only [postFilter]
    rw [postFilterAux_eq_self p h]

/-- A `minGap`-spaced list is sorted for the comparator ordering. -/
theorem spaced_sorted (q : ℚ) (hq : 0 ≤ q) {l : List Beat}
    (h : Spaced q l) : l.Sorted beatTimeLE := by
  have hch : l.Chain' beatTimeLE :=
    h.imp fun a b hab => by
      show a.time ≤ b.time
      linarith
  exact List.chain'_iff_pairwise.1 hch

/-- The map an analysis run produces is `minGap`-spaced: the debounce
already spaces the raw beats, the defensive sort is the identity on them,
and the post-filter then keeps every event. -/
theorem analyzeFullTrack_spaced (p : BeatParams) (hq : 0 ≤ minGap p)
    (prior : DetectorState) (samples : List Sample) :
    Spaced (minGap p) (analyzeFullTrack p prior samples) := by
  have hinv : DetInv (minGap p) (List.foldl (detectStep p)
      { prior with beatMap := [], beatHistory := [], dynamicThreshold := 0,
                   lastBeatTime := 0, lastEnergy := 0 } samples) :=
    detInv_foldl p hq
      { prior with beatMap := [], beatHistory := [], dynamicThreshold := 0,
                   lastBeatTime := 0, lastEnergy := 0 }
      ⟨List.chain'_nil, fun b hb => absurd hb (List.not_mem_nil b)⟩ samples
  simp only [analyzeFullTrack]
  rw [List.Sorted.insertionSort_eq (spaced_sorted (minGap p) hq hinv.1),
      postFilter_eq_self p hinv.1]
  exact hinv.1

end Dasher

namespace Dasher

/-- Claim C3: every BeatMap generated by an analysis run is strictly
time-ordered, and every adjacent pair of retained events satisfies
`time diff >= minBeatInterval` or `intensity[i+1] > intensity[i]*1.2`.
This holds even though the post-filter tests each event against its
predecessor in the pre-filter array: the in-detection debounce already
spaces the raw beats by `minBeatInterval`, so adjacent retained pairs
always satisfy the first disjunct. -/
theorem analysis_beatMap_ordered_and_adjacent_disjunction
    (prior : DetectorState) (samples : List Sample) :
    (analyzeFullTrack defaultBeatParams prior samples).Chain'
      (fun x y => x.time < y.time) ∧
    (analyzeFullTrack defaultBeatParams prior samples).Chain'
      (fun x y => defaultBeatParams.minBeatInterval / 1000 ≤ y.time - x.time ∨
        x.intensity * (12 / 10) < y.intensity) := by
  have hq : (0:ℚ) ≤ minGap defaultBeatParams := by
    norm_num [minGap, defaultBeatParams]
  have hpos : (0:ℚ) < minGap defaultBeatParams := by
    norm_num [minGap, defaultBeatParams]
  have hch : (analyzeFullTrack defaultBeatParams prior samples).Chain'
      (fun x y => x.time + minGap defaultBeatParams ≤ y.time) :=
    analyzeFullTrack_spaced defaultBeatParams hq prior samples
  constructor
  · exact hch.imp fun a b hab => by
      show a.time < b.time
      linarith
  · exact hch.imp fun a b hab => Or.inl (by
      show defaultBeatParams.minBeatInterval / 1000 ≤ b.time - a.time
      have hg : a.time + minGap defaultBeatParams ≤ b.time := hab
      unfold minGap at hg
      linarith)

/-- Claim C4: in every BeatMap the analysis pipeline produces, any two
events (not just adjacent ones) are at least `minBeatInterval` seconds
apart and the times are strictly increasing: the debounce gate spaces all
raw emitted beats unconditionally, and the post-filter then keeps every
event. -/
theorem analysis_beatMap_pairwise_min_spacing
    (prior : DetectorState) (samples : List Sample) :
    (analyzeFullTrack defaultBeatParams prior samples).Pairwise
      (fun x y => x.time + defaultBeatParams.minBeatInterval / 1000 ≤ y.time ∧
        x.time < y.time) := by
  have hq : (0:ℚ) ≤ minGap defaultBeatParams := by
    norm_num [minGap, defaultBeatParams]
  have hpos : (0:ℚ) < minGap defaultBeatParams := by
    norm_num [minGap, defaultBeatParams]
  have hch : (analyzeFullTrack defaultBeatParams prior samples).Chain'
      (fun x y => x.time + minGap defaultBeatParams ≤ y.time) :=
    analyzeFullTrack_spaced defaultBeatParams hq prior samples
  haveI : IsTrans Beat (fun x y : Beat => x.time + minGap defaultBeatParams ≤ y.time) :=
    ⟨fun a b c hab hbc => by
      show a.time + minGap defaultBeatParams ≤ c.time
      have h1 : a.time + minGap defaultBeatParams ≤ b.time := hab
      have h2 : b.time + minGap defaultBeatParams ≤ c.time := hbc
      linarith⟩
  have hpair := List.chain'_iff_pairwise.1 hch
  refine hpair.imp fun hab => ⟨hab, ?_⟩
  have h1 : _ + minGap defaultBeatParams ≤ _ := hab
  linarith

/-- Claim C6: the synthetic end-to-end runs with default parameters.  The
spike sequence (energy 50 everywhere, 300 at `t = 1.0`) yields exactly one
beat, at time 1 with intensity 1 (which clears `minBeatIntensity`); the
flat sequence (energy 50 throughout) yields no beats. -/
theorem synthetic_spike_and_flat_runs :
    analyzeFullTrack defaultBeatParams initDetectorState spikeSamples =
      [{ time := 1, intensity := 1 }] ∧
    defaultBeatParams.minBeatIntensity ≤ (1 : ℚ) ∧
    analyzeFullTrack defaultBeatParams initDetectorState flatSamples = [] := by
  refine ⟨?_, ?_, ?_⟩
  · norm_num [analyzeFullTrack, detectStep, detectEmit, pushHistory, listAvg,
      defaultBeatParams, initDetectorState, spikeSamples, postFilter,
      postFilterAux, keepBeat, beatTimeLE, List.insertionSort, List.orderedInsert]
  · norm_num [defaultBeatParams]
  · norm_num [analyzeFullTrack, detectStep, detectEmit, pushHistory, listAvg,
      defaultBeatParams, initDetectorState, flatSamples, postFilter,
      postFilterAux, keepBeat, beatTimeLE, List.insertionSort, List.orderedInsert]

/-- Claim C9: an analysis run resets every piece of detector state it
reads (`beatMap`, `beatHistory`, `dynamicThreshold`, `lastBeatTime`,
`lastEnergy`), so two runs over the same sample sequence produce
identical BeatMaps whatever states the runs start from — in particular,
analyzing the same fixed sequence twice is idempotent. -/
theorem analyzeFullTrack_deterministic (p : BeatParams)
    (prior₁ prior₂ : DetectorState) (samples : List Sample) :
    analyzeFullTrack p prior₁ samples = analyzeFullTrack p prior₂ samples := by
  cases prior₁
  cases prior₂
  rfl

/-- One detection step reads only `lastBeatTime`, `lastEnergy` and
`beatMap` of the incoming state: the history and dynamic threshold do not
influence those output components. -/
theorem detectStep_obs (p : BeatParams) (st₁ st₂ : DetectorState) (s : Sample)
    (hlbt : st₁.lastBeatTime = st₂.lastBeatTime)
    (hle : st₁.lastEnergy = st₂.lastEnergy)
    (hbm : st₁.beatMap = st₂.beatMap) :
    (detectStep p st₁ s).lastBeatTime = (detectStep p st₂ s).lastBeatTime ∧
    (detectStep p st₁ s).lastEnergy = (detectStep p st₂ s).lastEnergy ∧
    (detectStep p st₁ s).beatMap = (detectStep p st₂ s).beatMap := by
  obtain ⟨bh₁, dt₁, lbt₁, le₁, bm₁⟩ := st₁
  obtain ⟨bh₂, dt₂, lbt₂, le₂, bm₂⟩ := st₂
  dsimp only at hlbt hle hbm
  subst hlbt
  subst hle
  subst hbm
  simp only [detectStep, detectEmit]
  split_ifs <;> simp

/-- The noninterference of C10 lifted over the whole fold. -/
theorem detectFold_obs (p : BeatParams) (samples : List Sample) :
    ∀ st₁ st₂ : DetectorState,
      st₁.lastBeatTime = st₂.lastBeatTime →
      st₁.lastEnergy = st₂.lastEnergy →
      st₁.beatMap = st₂.beatMap →
      (samples.foldl (detectStep p) st₁).beatMap =
        (samples.foldl (detectStep p) st₂).beatMap := by
  induction samples with
  | nil =>
    intro st₁ st₂ _ _ h
    exact h
  | cons s rest ih =>
    intro st₁ st₂ h1 h2 h3
    obtain ⟨g1, g2, g3⟩ := detectStep_obs p st₁ st₂ s h1 h2 h3
    exact ih _ _ g1 g2 g3

/-- Claim C10: the adaptive `dynamicThreshold` and the `beatHistory` it
is derived from have no influence on the emitted beats — the
candidate-beat test reads only the fixed `energyThreshold` — so two
detector runs whose states differ only in those fields produce identical
beat events. -/
theorem threshold_state_noninterference (p : BeatParams)
    (st₁ st₂ : DetectorState) (samples : List Sample)
    (hlbt : st₁.lastBeatTime = st₂.lastBeatTime)
    (hle : st₁.lastEnergy = st₂.lastEnergy)
    (hbm : st₁.beatMap = st₂.beatMap) :
    (samples.foldl (detectStep p) st₁).beatMap =
      (samples.foldl (detectStep p) st₂).beatMap :=
  detectFold_obs p samples st₁ st₂ hlbt hle hbm

/-- Witness for C10: the reset state and a state with a nonempty history
and a large dynamic threshold, run over the spike sequence. -/
theorem threshold_state_noninterference_witness :
    initDetectorState.lastBeatTime =
      (⟨[100], 999, 0, 0, []⟩ : DetectorState).lastBeatTime ∧
    initDetectorState.lastEnergy =
      (⟨[100], 999, 0, 0, []⟩ : DetectorState).lastEnergy ∧
    initDetectorState.beatMap =
      (⟨[100], 999, 0, 0, []⟩ : DetectorState).beatMap ∧
    (spikeSamples.foldl (detectStep defaultBeatParams) initDetectorState).beatMap =
      (spikeSamples.foldl (detectStep defaultBeatParams)
        (⟨[100], 999, 0, 0, []⟩ : DetectorState)).beatMap :=
  ⟨rfl, rfl, rfl,
    threshold_state_noninterference defaultBeatParams initDetectorState
      ⟨[100], 999, 0, 0, []⟩ spikeSamples rfl rfl rfl⟩

end Dasher

namespace Dasher

/-- Claim C1 fails on the code: in the session over the one-beat map
`[{time: 2.0}]` that pauses at audio position 1.0 and resumes half a
second later, the timer armed by `start` is still pending when `resume`
sets `isPlaying` again, so it fires at wall 2.0 and passes its guard, and
the timer re-armed by `resume` fires at wall 2.5 — the single beat
callback runs twice instead of exactly once. -/
theorem pause_resume_duplicates_beat_callback :
    sessionFirings c1BeatMap 1 (3/2) =
      [⟨2, 1, some 2⟩, ⟨5/2, 1, none⟩] ∧
    (sessionFirings c1BeatMap 1 (3/2)).length = 2 := by
  have h : sessionFirings c1BeatMap 1 (3/2) =
      [⟨2, 1, some 2⟩, ⟨5/2, 1, none⟩] := by
    norm_num [sessionFirings, startTimers, resumeTimers, isActiveAt, c1BeatMap,
      List.filter]
  exact ⟨h, by rw [h]; rfl⟩

/-- Claim C2 fails on the code: when the underlying `play()` rejects,
`start` returns the normal value `false` (the `catch` branch does not
rethrow), `isPlaying` stays `true`, the timer armed before the `await`
stays pending, and its callback body passes the `isPlaying` guard — so a
beat callback does fire for the failed start. -/
theorem failed_start_returns_false_and_leaves_timers_armed :
    c2Out.2.2 = Except.ok false ∧
    c2Out.1.isPlaying = true ∧
    c2Out.2.1 = [⟨1, 4/5, some 1⟩] ∧
    firesAfterFailedStart c2Out.1 c2Out.2.1 = [⟨1, 4/5, some 1⟩] := by
  norm_num [c2Out, startAM, startTimers, firesAfterFailedStart, c2BeatMap]

/-- Claim C5: calling `start` with `isAnalyzed = false` transparently
runs the full analysis first, freezes the resulting map and sets
`isAnalyzed`, and only then arms one timer per beat of the analyzed map
and begins playback, returning `true` (not a failure) when `play()`
succeeds. -/
theorem start_before_analysis_runs_analysis_first (p : BeatParams)
    (prior : DetectorState) (s : AMState) (samples : List Sample)
    (h : s.isAnalyzed = false) :
    (startAM p prior s samples true).1.isAnalyzed = true ∧
    (startAM p prior s samples true).1.beatMap = analyzeFullTrack p prior samples ∧
    (startAM p prior s samples true).2.1 =
      startTimers (analyzeFullTrack p prior samples) ∧
    (startAM p prior s samples true).2.2 = Except.ok true := by
  simp [startAM, h]

/-- Witness for C5: a fresh manager (nothing analyzed) started over the
spike sequence. -/
theorem start_before_analysis_runs_analysis_first_witness :
    (AMState.mk false [] false).isAnalyzed = false ∧
    ((startAM defaultBeatParams initDetectorState ⟨false, [], false⟩
        spikeSamples true).1.isAnalyzed = true ∧
      (startAM defaultBeatParams initDetectorState ⟨false, [], false⟩
        spikeSamples true).1.beatMap =
        analyzeFullTrack defaultBeatParams initDetectorState spikeSamples ∧
      (startAM defaultBeatParams initDetectorState ⟨false, [], false⟩
        spikeSamples true).2.1 =
        startTimers (analyzeFullTrack defaultBeatParams initDetectorState spikeSamples) ∧
      (startAM defaultBeatParams initDetectorState ⟨false, [], false⟩
        spikeSamples true).2.2 = Except.ok true) :=
  ⟨rfl, start_before_analysis_runs_analysis_first defaultBeatParams
    initDetectorState ⟨false, [], false⟩ spikeSamples rfl⟩

/-- Claim C8 fails on the code: the timers armed by `start` pass both
the intensity and the time to the callback, but the timers re-armed by
`resume` invoke `onBeatDetected(beat.intensity)` with the time argument
omitted. -/
theorem resume_callback_missing_time_argument :
    (startTimers c1BeatMap).map Timer.timeArg = [some 2] ∧
    (resumeTimers c1BeatMap 1 (3/2)).map Timer.timeArg = [none] := by
  constructor
  · rfl
  · norm_num [resumeTimers, c1BeatMap]

end Dasher

namespace Dasher

/-- The model of `Math.abs` agrees with the absolute value. -/
theorem ratAbs_eq_abs (x : ℚ) : ratAbs x = |x| := by
  unfold ratAbs
  split_ifs with h
  · exact (abs_of_neg h).symm
  · exact (abs_of_nonneg (not_lt.1 h)).symm

/-- A spawn that passes the distance guard preserves the generator
invariant. -/
theorem levelInv_spawnObstacle (st : LevelState) (pos : ℚ) (h : LevelInv st)
    (hgap : minObstacleDistance ≤ ratAbs (pos - st.lastObstaclePosition)) :
    LevelInv (spawnObstacle st pos) := by
  obtain ⟨hchain, hlast⟩ := h
  constructor
  · show SpawnChain (st.spawnLog ++ [pos])
    unfold SpawnChain at hchain ⊢
    rw [List.chain'_append]
    refine ⟨hchain, List.chain'_singleton _, ?_⟩
    intro x hx y hy
    simp only [List.head?_cons, Option.mem_def, Option.some.injEq] at hy
    subst hy
    have hne : st.spawnLog ≠ [] := by
      intro hnil
      rw [hnil] at hx
      simp at hx
    have hlx := hlast hne
    rw [hlx] at hx
    simp only [Option.mem_def, Option.some.injEq] at hx
    subst hx
    show minObstacleDistance ≤ |pos - st.lastObstaclePosition|
    rw [← ratAbs_eq_abs]
    exact hgap
  · intro _
    show (st.spawnLog ++ [pos]).getLast? = some pos
    exact List.getLast?_concat _

/-- The reactive spawn path preserves the generator invariant. -/
theorem levelInv_generateObstacleOnBeat (st : LevelState) (pfp : ℚ)
    (h : LevelInv st) : LevelInv (generateObstacleOnBeat st pfp) := by
  simp only [generateObstacleOnBeat]
  split_ifs with hcond
  · exact levelInv_spawnObstacle st _ h hcond
  · exact h

/-- One iteration of the look-ahead pass preserves the generator
invariant. -/
theorem levelInv_updatePlannedStep (t x : ℚ)
    (acc : LevelState × List PlannedObstacle) (ob : PlannedObstacle)
    (h : LevelInv acc.1) : LevelInv (updatePlannedStep t x acc ob).1 := by
  simp only [updatePlannedStep]
  split_ifs with h1 h2 h3
  · exact h
  · exact levelInv_spawnObstacle acc.1 _ h h3
  · exact h
  · exact h

/-- The whole look-ahead fold preserves the generator invariant. -/
theorem levelInv_updateFold (t x : ℚ) (obs : List PlannedObstacle) :
    ∀ acc : LevelState × List PlannedObstacle, LevelInv acc.1 →
      LevelInv (obs.foldl (updatePlannedStep t x) acc).1 := by
  induction obs with
  | nil =>
    intro acc h
    exact h
  | cons ob rest ih =>
    intro acc h
    exact ih _ (levelInv_updatePlannedStep t x acc ob h)

/-- `update()` preserves the generator invariant: despawning touches only
the queue, never the spawn log or `lastObstaclePosition`. -/
theorem levelInv_levelUpdate (st : LevelState) (t x : ℚ) (h : LevelInv st) :
    LevelInv (levelUpdate st t x) := by
  have hr := levelInv_updateFold t x st.planned (st, []) h
  exact ⟨hr.1, hr.2⟩

/-- Every session event preserves the generator invariant. -/
theorem levelInv_applyLevelStep (st : LevelState) (step : LevelStep)
    (h : LevelInv st) : LevelInv (applyLevelStep st step) := by
  cases step with
  | beat pfp => exact levelInv_generateObstacleOnBeat st pfp h
  | frame t x => exact levelInv_levelUpdate st t x h

/-- A whole session preserves the generator invariant. -/
theorem levelInv_runLevel (trace : List LevelStep) :
    ∀ st : LevelState, LevelInv st → LevelInv (runLevel st trace) := by
  induction trace with
  | nil =>
    intro st h
    exact h
  | cons step rest ih =>
    intro st h
    exact ih _ (levelInv_applyLevelStep st step h)

end Dasher

namespace Dasher

/-- Claim C7 fails on the code: at the end of the counterexample session
three obstacles are live at positions 50, 44 and 49 — both spawn paths
checked only against the single shared `lastObstaclePosition`, so the
obstacles at 50 and 49 are simultaneously live yet only 1 apart, below
`minObstacleDistance`. -/
theorem live_obstacles_closer_than_min_distance :
    c7Final.obstacleQueue = [50, 44, 49] ∧
    ¬ c7Final.obstacleQueue.Pairwise
        (fun a b => minObstacleDistance ≤ |a - b|) := by
  have h : c7Final.obstacleQueue = [50, 44, 49] := by
    norm_num [c7Final, runLevel, applyLevelStep, c7Trace, c7Planned,
      preplanObstacles, generateObstacleOnBeat, spawnObstacle, levelUpdate,
      updatePlannedStep, ratAbs, minObstacleDistance, spawnDistance,
      despawnDistance, List.foldl, List.filter]
  refine ⟨h, ?_⟩
  rw [h]
  intro hp
  rcases List.pairwise_cons.1 hp with ⟨h50, -⟩
  have h49 := h50 49 (by simp)
  rw [abs_of_nonneg (by norm_num : (0:ℚ) ≤ 50 - 49)] at h49
  norm_num [minObstacleDistance] at h49

/-- Claim C7 amended: what the shared `lastObstaclePosition` check does
guarantee is that each spawn — from either path — lands at least
`minObstacleDistance` away from the immediately preceding spawn, over any
session from a reset generator with any preplanned map. -/
theorem consecutive_spawns_min_spaced (planned : List PlannedObstacle)
    (trace : List LevelStep) :
    SpawnChain ((runLevel ⟨planned, [], 0, []⟩ trace).spawnLog) :=
  (levelInv_runLevel trace ⟨planned, [], 0, []⟩
    ⟨List.chain'_nil, fun hne => absurd rfl hne⟩).1

end Dasher
